import Mathlib

/-!
# Verification of the live audio capture-and-streaming pipeline

Shallow embedding of the meeting-transcription client's core:
the sample converter (`src/services/audioUtils.ts`), the transcript
reconciler and CSV export (`src/App.tsx`), the live-session frame
delivery and teardown logic (`LiveSession`), and the batch response
handling (`transcribeAudioFile` in the service module).

Audio samples are modelled as rationals (every `Float32` value is a
rational, and the scalings by 32768/32767 are exact in double
precision for 24-bit inputs), machine 16-bit integers as `ℤ` with the
explicit `mod 2^16` wrap of the JavaScript `ToInt16` conversion, and
byte buffers as lists of naturals below 256.
-/

namespace Reuniones

/-! ## Sample Converter (`src/services/audioUtils.ts`) -/

/-- `Math.max(-1, Math.min(1, x))`: clamp a sample to `[-1, 1]`. -/
def clampQ (q : ℚ) : ℚ := max (-1) (min 1 q)

/-- JavaScript number-to-integer truncation (toward zero), on rationals. -/
def truncQ (q : ℚ) : ℤ := if q < 0 then ⌈q⌉ else ⌊q⌋

/-- The `ToInt16` conversion applied when storing into an `Int16Array`:
wrap modulo `2^16` into the signed range `[-32768, 32767]`. -/
def toInt16 (n : ℤ) : ℤ := (n + 32768) % 65536 - 32768

/-- One iteration of the `float32ToInt16` loop:
`const s = Math.max(-1, Math.min(1, x)); s < 0 ? s * 0x8000 : s * 0x7FFF`
stored into a 16-bit signed slot. -/
def sampleToInt16 (q : ℚ) : ℤ :=
  toInt16 (truncQ (if clampQ q < 0 then clampQ q * 32768 else clampQ q * 32767))

/-- `float32ToInt16`: element-wise conversion of a sample buffer to
16-bit signed PCM. -/
def float32ToInt16 (xs : List ℚ) : List ℤ := xs.map sampleToInt16

lemma clampQ_of_le_neg_one {q : ℚ} (hq : q ≤ -1) : clampQ q = -1 := by
  have h1 : min 1 q = q := min_eq_right (by linarith)
  simp [clampQ, h1, max_eq_left hq]

lemma clampQ_of_one_le {q : ℚ} (hq : 1 ≤ q) : clampQ q = 1 := by
  have h1 : min 1 q = 1 := min_eq_left hq
  have h2 : (-1 : ℚ) ≤ 1 := by norm_num
  simp [clampQ, h1, max_eq_right h2]

lemma clampQ_eq_self {q : ℚ} (h1 : -1 ≤ q) (h2 : q ≤ 1) : clampQ q = q := by
  simp [clampQ, min_eq_right h2, max_eq_right h1]

lemma clampQ_mem {q : ℚ} : -1 ≤ clampQ q ∧ clampQ q ≤ 1 := by
  constructor
  · exact le_max_left _ _
  · exact max_le (by norm_num) (min_le_left _ _)

lemma toInt16_of_mem {n : ℤ} (h1 : -32768 ≤ n) (h2 : n ≤ 32767) : toInt16 n = n := by
  unfold toInt16
  omega

/-- On a clamped negative sample the converter truncates `q * 32768`
toward zero, i.e. takes its ceiling, and the 16-bit wrap is the identity. -/
lemma sampleToInt16_of_neg {q : ℚ} (h1 : -1 ≤ q) (h2 : q < 0) :
    sampleToInt16 q = ⌈q * 32768⌉ := by
  have hcl : clampQ q = q := clampQ_eq_self h1 (by linarith)
  have hscale : q * 32768 < 0 := by nlinarith
  have hceil_lo : (-32768 : ℤ) ≤ ⌈q * 32768⌉ := by
    have hlt : ((-32769 : ℤ) : ℚ) < q * 32768 := by push_cast; nlinarith
    have := Int.lt_ceil.mpr hlt
    omega
  have hceil_hi : ⌈q * 32768⌉ ≤ 32767 := by
    have h0 : ⌈q * 32768⌉ ≤ (0 : ℤ) := Int.ceil_le.mpr (by push_cast; linarith)
    omega
  rw [sampleToInt16, hcl, if_pos h2, truncQ, if_pos hscale,
    toInt16_of_mem hceil_lo hceil_hi]

/-- On a clamped non-negative sample the converter truncates `q * 32767`
toward zero, i.e. takes its floor, and the 16-bit wrap is the identity. -/
lemma sampleToInt16_of_nonneg {q : ℚ} (h1 : 0 ≤ q) (h2 : q ≤ 1) :
    sampleToInt16 q = ⌊q * 32767⌋ := by
  have hcl : clampQ q = q := clampQ_eq_self (by linarith) h2
  have hscale : (0 : ℚ) ≤ q * 32767 := by positivity
  have hfloor_lo : (-32768 : ℤ) ≤ ⌊q * 32767⌋ := by
    have : (0 : ℤ) ≤ ⌊q * 32767⌋ := Int.floor_nonneg.mpr hscale
    omega
  have hfloor_hi : ⌊q * 32767⌋ ≤ 32767 := by
    have hlt : ⌊q * 32767⌋ < (32768 : ℤ) := Int.floor_lt.mpr (by push_cast; nlinarith)
    omega
  rw [sampleToInt16, hcl, if_neg (not_lt.mpr h1), truncQ, if_neg (not_lt.mpr hscale),
    toInt16_of_mem hfloor_lo hfloor_hi]

lemma sampleToInt16_neg_one : sampleToInt16 (-1) = -32768 := by
  rw [sampleToInt16_of_neg (by norm_num) (by norm_num),
    show ((-1 : ℚ) * 32768) = ((-32768 : ℤ) : ℚ) by norm_num, Int.ceil_intCast]

lemma sampleToInt16_zero : sampleToInt16 0 = 0 := by
  rw [sampleToInt16_of_nonneg (by norm_num) (by norm_num),
    show ((0 : ℚ) * 32767) = ((0 : ℤ) : ℚ) by norm_num, Int.floor_intCast]

lemma sampleToInt16_one : sampleToInt16 1 = 32767 := by
  rw [sampleToInt16_of_nonneg (by norm_num) (by norm_num),
    show ((1 : ℚ) * 32767) = ((32767 : ℤ) : ℚ) by norm_num, Int.floor_intCast]

/-! ### C3 and C9 -/

/-- C3: each sample is clamped to `[-1, 1]` first (inputs at or beyond the
bounds saturate), then scaled asymmetrically — negative values by 32768,
non-negative values by 32767, truncated toward zero — so that `-1`, `0`
and `1` encode exactly to `-32768`, `0` and `32767`. -/
theorem sampleToInt16_clamps_then_scales_asymmetrically :
    (∀ q : ℚ, q ≤ -1 → sampleToInt16 q = -32768) ∧
    (∀ q : ℚ, 1 ≤ q → sampleToInt16 q = 32767) ∧
    (∀ q : ℚ, -1 ≤ q → q < 0 → sampleToInt16 q = ⌈q * 32768⌉) ∧
    (∀ q : ℚ, 0 ≤ q → q ≤ 1 → sampleToInt16 q = ⌊q * 32767⌋) ∧
    float32ToInt16 [-1, 0, 1] = [-32768, 0, 32767] := by
  refine ⟨?_, ?_, fun q h1 h2 => sampleToInt16_of_neg h1 h2,
    fun q h1 h2 => sampleToInt16_of_nonneg h1 h2, ?_⟩
  · intro q hq
    have : sampleToInt16 q = sampleToInt16 (-1) := by
      unfold sampleToInt16
      rw [clampQ_of_le_neg_one hq, clampQ_of_le_neg_one (le_refl (-1))]
    rw [this, sampleToInt16_neg_one]
  · intro q hq
    have : sampleToInt16 q = sampleToInt16 1 := by
      unfold sampleToInt16
      rw [clampQ_of_one_le hq, clampQ_of_one_le (le_refl 1)]
    rw [this, sampleToInt16_one]
  · simp [float32ToInt16, sampleToInt16_neg_one, sampleToInt16_zero, sampleToInt16_one]

/-- Witness for C3: the boundary inputs and an interior sample,
evaluated concretely through the theorem. -/
theorem sampleToInt16_clamps_witness :
    sampleToInt16 (-2) = -32768 ∧ sampleToInt16 2 = 32767 ∧
    sampleToInt16 (-1/2) = -16384 ∧ sampleToInt16 (1/2) = 16383 := by
  refine ⟨sampleToInt16_clamps_then_scales_asymmetrically.1 (-2) (by norm_num),
    sampleToInt16_clamps_then_scales_asymmetrically.2.1 2 (by norm_num),
    ?_, ?_⟩
  · rw [sampleToInt16_clamps_then_scales_asymmetrically.2.2.1 (-1/2) (by norm_num)
      (by norm_num),
      show ((-1/2 : ℚ) * 32768) = ((-16384 : ℤ) : ℚ) by norm_num, Int.ceil_intCast]
  · rw [sampleToInt16_clamps_then_scales_asymmetrically.2.2.2.1 (1/2) (by norm_num)
      (by norm_num)]
    rw [show ((1/2 : ℚ) * 32767) = (32767 / 2 : ℚ) by ring]
    rw [show (32767 / 2 : ℚ) = ((16383 : ℤ) : ℚ) + 1/2 by norm_num]
    rw [Int.floor_int_add]
    rw [Int.floor_eq_zero_iff.mpr (by constructor <;> norm_num)]
    norm_num

/-- C9: `float32ToInt16` is total and length-preserving, and the empty
buffer converts to the empty buffer rather than failing. -/
theorem float32ToInt16_total_length_preserving :
    (∀ xs : List ℚ, (float32ToInt16 xs).length = xs.length) ∧
    float32ToInt16 [] = [] := by
  exact ⟨fun xs => List.length_map xs sampleToInt16, rfl⟩

/-! ## Wire format: `Int16Array` buffer bytes and `arrayBufferToBase64` -/

/-- The little-endian byte pair of one stored 16-bit sample, as exposed by
the `Uint8Array` view that `arrayBufferToBase64` takes of the
`Int16Array` buffer. -/
def int16ToBytesLE (v : ℤ) : List ℕ :=
  [(v % 65536).toNat % 256, (v % 65536).toNat / 256]

/-- The raw bytes of `Int16Array.buffer` for a converted sample list. -/
def int16Buffer (vs : List ℤ) : List ℕ := vs.flatMap int16ToBytesLE

/-- The standard base64 alphabet used by `btoa`. -/
def b64Alphabet : List Char :=
  ['A', 'B', 'C', 'D', 'E', 'F', 'G', 'H', 'I', 'J', 'K', 'L', 'M',
   'N', 'O', 'P', 'Q', 'R', 'S', 'T', 'U', 'V', 'W', 'X', 'Y', 'Z',
   'a', 'b', 'c', 'd', 'e', 'f', 'g', 'h', 'i', 'j', 'k', 'l', 'm',
   'n', 'o', 'p', 'q', 'r', 's', 't', 'u', 'v', 'w', 'x', 'y', 'z',
   '0', '1', '2', '3', '4', '5', '6', '7', '8', '9', '+', '/']

/-- Alphabet lookup for one 6-bit group. -/
def b64Char (n : ℕ) : Char := b64Alphabet.getD n 'A'

/-- `btoa` on the accumulated byte string: RFC 4648 base64 with `=`
padding, three bytes per four output characters. -/
def encodeB64 : List ℕ → List Char
  | a :: b :: c :: rest =>
      b64Char (a / 4) :: b64Char (a % 4 * 16 + b / 16) ::
        b64Char (b % 16 * 4 + c / 64) :: b64Char (c % 64) :: encodeB64 rest
  | [a, b] => [b64Char (a / 4), b64Char (a % 4 * 16 + b / 16), b64Char (b % 16 * 4), '=']
  | [a] => [b64Char (a / 4), b64Char (a % 4 * 16), '=', '=']
  | [] => []

/-- `arrayBufferToBase64`: byte-wise `String.fromCharCode` accumulation
followed by `btoa`, i.e. base64 of the buffer bytes. -/
def arrayBufferToBase64 (bytes : List ℕ) : String := String.mk (encodeB64 bytes)

/-- `convertToWireFormat` (spec §4.1): `float32ToInt16`, then base64 of
the little-endian buffer bytes. -/
def convertToWireFormat (qs : List ℚ) : String :=
  arrayBufferToBase64 (int16Buffer (float32ToInt16 qs))

/-- Modelled from the spec: base64-to-bytes direction of the inverse
decode required by §8; the repository itself ships no decoder. -/
def decodeB64 : List Char → List ℕ
  | c1 :: c2 :: c3 :: c4 :: rest =>
      let s1 := b64Alphabet.indexOf c1
      let s2 := b64Alphabet.indexOf c2
      if c3 = '=' then [s1 * 4 + s2 / 16]
      else
        let s3 := b64Alphabet.indexOf c3
        if c4 = '=' then [s1 * 4 + s2 / 16, s2 % 16 * 16 + s3 / 4]
        else
          (s1 * 4 + s2 / 16) :: (s2 % 16 * 16 + s3 / 4) ::
            (s3 % 4 * 64 + b64Alphabet.indexOf c4) :: decodeB64 rest
  | _ => []

/-- Modelled from the spec: reading the little-endian byte pairs back as
signed 16-bit integers (inverse of the buffer view). -/
def bytesToInt16 : List ℕ → List ℤ
  | b0 :: b1 :: rest =>
      (if b0 + 256 * b1 < 32768 then ((b0 : ℤ) + 256 * b1)
       else ((b0 : ℤ) + 256 * b1) - 65536) :: bytesToInt16 rest
  | _ => []

/-- Modelled from the spec: mapping a decoded 16-bit integer back to an
amplitude, inverting the asymmetric scaling of §4.1. -/
def int16ToSample (v : ℤ) : ℚ :=
  if v < 0 then (v : ℚ) / 32768 else (v : ℚ) / 32767

/-- Modelled from the spec: the full inverse decode of the wire format. -/
def decodeWireFormat (s : String) : List ℚ :=
  (bytesToInt16 (decodeB64 s.toList)).map int16ToSample

lemma b64Alphabet_length : b64Alphabet.length = 64 := rfl

lemma b64Alphabet_nodup : b64Alphabet.Nodup := by decide

lemma b64Char_mem {n : ℕ} (h : n < 64) : b64Char n ∈ b64Alphabet := by
  unfold b64Char
  rw [List.getD_eq_getElem _ _ (by rw [b64Alphabet_length]; exact h)]
  exact List.getElem_mem _

lemma b64Char_ne_pad {n : ℕ} (h : n < 64) : b64Char n ≠ '=' := by
  intro hc
  have hmem := b64Char_mem h
  rw [hc] at hmem
  exact absurd hmem (by decide)

lemma indexOf_b64Char {n : ℕ} (h : n < 64) : b64Alphabet.indexOf (b64Char n) = n := by
  unfold b64Char
  rw [List.getD_eq_getElem _ _ (by rw [b64Alphabet_length]; exact h)]
  exact List.indexOf_getElem b64Alphabet_nodup n _

/-- Base64 decoding undoes `btoa` on any byte string. -/
lemma decodeB64_encodeB64 :
    ∀ bytes : List ℕ, (∀ b ∈ bytes, b < 256) → decodeB64 (encodeB64 bytes) = bytes := by
  intro bytes
  induction bytes using encodeB64.induct with
  | case1 a b c rest ih =>
    intro hb
    have ha : a < 256 := hb a (by simp)
    have hbb : b < 256 := hb b (by simp)
    have hc : c < 256 := hb c (by simp)
    have h1 : a / 4 < 64 := by omega
    have h2 : a % 4 * 16 + b / 16 < 64 := by omega
    have h3 : b % 16 * 4 + c / 64 < 64 := by omega
    have h4 : c % 64 < 64 := by omega
    rw [encodeB64]
    rw [decodeB64]
    rw [if_neg (b64Char_ne_pad h3), if_neg (b64Char_ne_pad h4)]
    rw [indexOf_b64Char h1, indexOf_b64Char h2, indexOf_b64Char h3, indexOf_b64Char h4]
    rw [ih (fun x hx => hb x (by simp [hx]))]
    congr 1 <;> try congr 1
    · omega
    · omega
    · congr 1
      omega
  | case2 a b =>
    intro hb
    have ha : a < 256 := hb a (by simp)
    have hbb : b < 256 := hb b (by simp)
    have h1 : a / 4 < 64 := by omega
    have h2 : a % 4 * 16 + b / 16 < 64 := by omega
    have h3 : b % 16 * 4 < 64 := by omega
    rw [encodeB64, decodeB64]
    rw [if_neg (b64Char_ne_pad h3), if_pos rfl]
    rw [indexOf_b64Char h1, indexOf_b64Char h2, indexOf_b64Char h3]
    congr 1
    · omega
    · congr 1
      omega
  | case3 a =>
    intro hb
    have ha : a < 256 := hb a (by simp)
    have h1 : a / 4 < 64 := by omega
    have h2 : a % 4 * 16 < 64 := by omega
    rw [encodeB64, decodeB64, if_pos rfl]
    rw [indexOf_b64Char h1, indexOf_b64Char h2]
    congr 1
    omega
  | case4 =>
    intro _
    rfl

lemma int16Buffer_lt (vs : List ℤ) : ∀ b ∈ int16Buffer vs, b < 256 := by
  intro b hb
  simp only [int16Buffer, List.mem_flatMap] at hb
  obtain ⟨v, _, hmem⟩ := hb
  have hlt : (v % 65536).toNat < 65536 := by omega
  simp only [int16ToBytesLE, List.mem_cons, List.mem_singleton] at hmem
  rcases hmem with h | h | h
  · omega
  · omega
  · simp at h

/-- Reading the buffer bytes back yields exactly the stored 16-bit values. -/
lemma bytesToInt16_int16Buffer :
    ∀ vs : List ℤ, (∀ v ∈ vs, -32768 ≤ v ∧ v ≤ 32767) →
      bytesToInt16 (int16Buffer vs) = vs := by
  intro vs
  induction vs with
  | nil =>
    intro _
    rfl
  | cons v rest ih =>
    intro hv
    have hrange := hv v (by simp)
    have hrest : bytesToInt16 (int16Buffer rest) = rest :=
      ih (fun x hx => hv x (by simp [hx]))
    show bytesToInt16 (int16ToBytesLE v ++ int16Buffer rest) = v :: rest
    rw [int16ToBytesLE, List.cons_append, List.cons_append, List.nil_append]
    rw [bytesToInt16, hrest]
    congr 1
    have hmod : (v % 65536).toNat % 256 + 256 * ((v % 65536).toNat / 256)
        = (v % 65536).toNat := by omega
    split <;> omega

lemma toInt16_mem_range (n : ℤ) : -32768 ≤ toInt16 n ∧ toInt16 n ≤ 32767 := by
  unfold toInt16
  omega

lemma sampleToInt16_mem_range (q : ℚ) :
    -32768 ≤ sampleToInt16 q ∧ sampleToInt16 q ≤ 32767 :=
  toInt16_mem_range _

/-- Per-sample accuracy of encode-then-decode: at most one 16-bit
quantization step of error. -/
lemma int16ToSample_sampleToInt16 {q : ℚ} (h1 : -1 ≤ q) (h2 : q ≤ 1) :
    |q - int16ToSample (sampleToInt16 q)| ≤ 1 / 32767 := by
  rcases lt_or_le q 0 with hq | hq
  · rw [sampleToInt16_of_neg h1 hq]
    have hle : q * 32768 ≤ ((⌈q * 32768⌉ : ℤ) : ℚ) := Int.le_ceil _
    have hlt : ((⌈q * 32768⌉ : ℤ) : ℚ) < q * 32768 + 1 := Int.ceil_lt_add_one _
    have hnonpos : ⌈q * 32768⌉ ≤ 0 := Int.ceil_le.mpr (by push_cast; nlinarith)
    unfold int16ToSample
    split
    · rename_i hneg
      have hcast : ((⌈q * 32768⌉ : ℤ) : ℚ) / 32768 * 32768 = ((⌈q * 32768⌉ : ℤ) : ℚ) := by
        field_simp
      rw [abs_le]
      constructor <;> nlinarith
    · rename_i hnneg
      have hzero : ⌈q * 32768⌉ = 0 := by omega
      rw [hzero] at hle hlt ⊢
      simp only [Int.cast_zero, zero_div, sub_zero] at hle hlt ⊢
      rw [abs_le]
      constructor <;> linarith
  · rw [sampleToInt16_of_nonneg hq h2]
    have hle : ((⌊q * 32767⌋ : ℤ) : ℚ) ≤ q * 32767 := Int.floor_le _
    have hlt : q * 32767 < ((⌊q * 32767⌋ : ℤ) : ℚ) + 1 := Int.lt_floor_add_one _
    have hnonneg : 0 ≤ ⌊q * 32767⌋ := Int.floor_nonneg.mpr (by positivity)
    unfold int16ToSample
    rw [if_neg (by omega)]
    have hcast : ((⌊q * 32767⌋ : ℤ) : ℚ) / 32767 * 32767 = ((⌊q * 32767⌋ : ℤ) : ℚ) := by
      field_simp
    rw [abs_le]
    constructor <;> nlinarith

lemma decodeWireFormat_convertToWireFormat (qs : List ℚ) :
    decodeWireFormat (convertToWireFormat qs)
      = (float32ToInt16 qs).map int16ToSample := by
  unfold decodeWireFormat convertToWireFormat arrayBufferToBase64
  have htl : (String.mk (encodeB64 (int16Buffer (float32ToInt16 qs)))).toList
      = encodeB64 (int16Buffer (float32ToInt16 qs)) := rfl
  rw [htl, decodeB64_encodeB64 _ (int16Buffer_lt _),
    bytesToInt16_int16Buffer _ ?_]
  intro v hv
  simp only [float32ToInt16, List.mem_map] at hv
  obtain ⟨q, _, rfl⟩ := hv
  exact sampleToInt16_mem_range q

/-! ### C4 -/

/-- C4: for every amplitude sequence with values in `[-1, 1]`, encoding
via `convertToWireFormat` (`float32ToInt16` then base64 serialization of
the buffer) and applying the inverse decode reproduces each sample within
one quantization step (`1/32767`) of 16-bit resolution, sample for
sample. -/
theorem convertToWireFormat_roundtrip (qs : List ℚ)
    (h : ∀ q ∈ qs, -1 ≤ q ∧ q ≤ 1) :
    (decodeWireFormat (convertToWireFormat qs)).length = qs.length ∧
    List.Forall₂ (fun q r => |q - r| ≤ 1 / 32767) qs
      (decodeWireFormat (convertToWireFormat qs)) := by
  rw [decodeWireFormat_convertToWireFormat]
  unfold float32ToInt16
  rw [List.map_map]
  constructor
  · simp
  · rw [List.forall₂_map_right_iff, List.forall₂_same]
    intro q hq
    exact int16ToSample_sampleToInt16 (h q hq).1 (h q hq).2

/-- Witness for C4: a concrete three-sample buffer through the full
encode/decode pipeline. -/
theorem convertToWireFormat_roundtrip_witness :
    (decodeWireFormat (convertToWireFormat [0, 1, -1/2])).length = 3 ∧
    List.Forall₂ (fun q r => |q - r| ≤ 1 / 32767) [0, 1, -1/2]
      (decodeWireFormat (convertToWireFormat [0, 1, -1/2])) := by
  have := convertToWireFormat_roundtrip [0, 1, -1/2] (by norm_num)
  simpa using this

/-! ## Transcript Reconciler and CSV export (`src/App.tsx`) -/

/-- The gender labels of `TranscriptSegment.gender` in `src/types.ts`. -/
inductive Gender where
  | masculino
  | femenino
  | desconocido
deriving DecidableEq

/-- The CSV spelling of a gender label (the value interpolated by
`handleExport`). -/
def Gender.text : Gender → String
  | .masculino => "Masculino"
  | .femenino => "Femenino"
  | .desconocido => "Desconocido"

/-- `TranscriptSegment` from `src/types.ts`. -/
structure TranscriptSegment where
  speaker : String
  gender : Gender
  timestamp : String
  text : String
deriving DecidableEq

/-- `handleLiveUpdate` from `src/App.tsx`: the reconciliation step applied
to the previous transcript for one incremental text chunk. The current
wall-clock time (`new Date().toLocaleTimeString(...)`) is passed in as
`now`. -/
def handleLiveUpdate (prev : List TranscriptSegment) (text : String)
    (now : String) : List TranscriptSegment :=
  match prev.getLast? with
  | some last =>
      if last.speaker = "En Vivo" then
        prev.dropLast ++ [{ last with text := last.text ++ text }]
      else
        prev ++ [⟨"En Vivo", Gender.desconocido, now, text⟩]
  | none => prev ++ [⟨"En Vivo", Gender.desconocido, now, text⟩]

/-- The `LiveSession` transcription callback
`(text, isFinal) => onTranscriptionUpdate(text)`: the turn-completion
flag is discarded before reconciliation. -/
def applyTranscription (segs : List TranscriptSegment) (ev : String × Bool)
    (now : String) : List TranscriptSegment :=
  handleLiveUpdate segs ev.1 now

/-! ### C2 and C10 -/

/-- C2: if the transcript is non-empty and its last segment carries the
synthetic live label, the update returns the same list with the text
appended to the last segment; otherwise it extends the list by a fresh
segment with the synthetic label, unknown gender, the current wall-clock
timestamp and the text as initial content. Consequently the event
sequence `("Hola", false), (" mundo", false), (" hoy", true)` applied to
the empty transcript yields exactly one segment reading
`"Hola mundo hoy"`. -/
theorem handleLiveUpdate_merge_rule :
    (∀ (prev : List TranscriptSegment) (t now : String)
        (last : TranscriptSegment),
      prev.getLast? = some last → last.speaker = "En Vivo" →
        handleLiveUpdate prev t now
          = prev.dropLast ++ [{ last with text := last.text ++ t }]) ∧
    (∀ (prev : List TranscriptSegment) (t now : String),
      (∀ last, prev.getLast? = some last → last.speaker ≠ "En Vivo") →
        handleLiveUpdate prev t now
          = prev ++ [⟨"En Vivo", Gender.desconocido, now, t⟩]) ∧
    (∀ n1 n2 n3 : String,
      applyTranscription (applyTranscription (applyTranscription []
          ("Hola", false) n1) (" mundo", false) n2) (" hoy", true) n3
        = [⟨"En Vivo", Gender.desconocido, n1, "Hola mundo hoy"⟩]) := by
  refine ⟨?_, ?_, ?_⟩
  · intro prev t now last hlast hsp
    simp only [handleLiveUpdate, hlast]
    rw [if_pos hsp]
  · intro prev t now hno
    cases hl : prev.getLast? with
    | none => simp only [handleLiveUpdate, hl]
    | some last =>
      simp only [handleLiveUpdate, hl]
      rw [if_neg (hno last hl)]
  · intro n1 n2 n3
    simp [applyTranscription, handleLiveUpdate]

/-- Witness for C2: the merge rule applied at a concrete one-segment live
transcript and the creation rule at the empty transcript. -/
theorem handleLiveUpdate_merge_rule_witness :
    handleLiveUpdate [⟨"En Vivo", Gender.desconocido, "00:01", "Hola"⟩]
        " mundo" "00:02"
      = [⟨"En Vivo", Gender.desconocido, "00:01", "Hola mundo"⟩] ∧
    handleLiveUpdate [] "Hola" "00:01"
      = [⟨"En Vivo", Gender.desconocido, "00:01", "Hola"⟩] := by
  constructor
  · have h := handleLiveUpdate_merge_rule.1
      [⟨"En Vivo", Gender.desconocido, "00:01", "Hola"⟩] " mundo" "00:02"
      ⟨"En Vivo", Gender.desconocido, "00:01", "Hola"⟩ (by rfl) (by rfl)
    simpa using h
  · have h := handleLiveUpdate_merge_rule.2.1 [] "Hola" "00:01"
      (fun last hlast => by simp at hlast)
    simpa using h

/-- C10: one reconciliation step touches at most the final segment: every
segment before the last survives unchanged, and in the append case the
length is unchanged and the last segment keeps its speaker, gender and
timestamp, with only the text extended by the incoming chunk. -/
theorem handleLiveUpdate_frame_effect :
    (∀ (prev : List TranscriptSegment) (t now : String),
      (handleLiveUpdate prev t now).take
          ((handleLiveUpdate prev t now).length - 1)
        = prev.take ((handleLiveUpdate prev t now).length - 1)) ∧
    (∀ (prev : List TranscriptSegment) (t now : String)
        (last : TranscriptSegment),
      prev.getLast? = some last → last.speaker = "En Vivo" →
        (handleLiveUpdate prev t now).length = prev.length ∧
        (handleLiveUpdate prev t now).getLast?
          = some { speaker := last.speaker, gender := last.gender,
                   timestamp := last.timestamp, text := last.text ++ t }) := by
  constructor
  · intro prev t now
    cases hl : prev.getLast? with
    | none =>
      have hnil : prev = [] := by
        cases prev with
        | nil => rfl
        | cons x xs => simp [List.getLast?_concat] at hl
      subst hnil
      rfl
    | some last =>
      obtain ⟨ys, rfl⟩ := List.getLast?_eq_some_iff.1 hl
      simp only [handleLiveUpdate, hl]
      by_cases hsp : last.speaker = "En Vivo"
      · rw [if_pos hsp, List.dropLast_concat]
        have hlen : (ys ++ [{ last with text := last.text ++ t }]).length - 1
            = ys.length := by simp
        rw [hlen, List.take_left' rfl, List.take_left' rfl]
      · rw [if_neg hsp]
        have hlen : ((ys ++ [last]) ++ [(⟨"En Vivo", Gender.desconocido, now, t⟩ :
            TranscriptSegment)]).length - 1 = (ys ++ [last]).length := by simp
        rw [hlen, List.take_left' rfl, List.take_length]
  · intro prev t now last hlast hsp
    simp only [handleLiveUpdate, hlast]
    rw [if_pos hsp]
    obtain ⟨ys, rfl⟩ := List.getLast?_eq_some_iff.1 hlast
    rw [List.dropLast_concat]
    refine ⟨by simp, ?_⟩
    rw [List.getLast?_concat]

/-- Witness for C10: the frame condition evaluated on a concrete
two-segment transcript in the append case. -/
theorem handleLiveUpdate_frame_effect_witness :
    (handleLiveUpdate [⟨"Hablante 1", Gender.masculino, "00:00", "Buenas"⟩,
        ⟨"En Vivo", Gender.desconocido, "00:05", "Hola"⟩] " mundo" "00:06").take 1
      = [⟨"Hablante 1", Gender.masculino, "00:00", "Buenas"⟩] ∧
    (handleLiveUpdate [⟨"Hablante 1", Gender.masculino, "00:00", "Buenas"⟩,
        ⟨"En Vivo", Gender.desconocido, "00:05", "Hola"⟩] " mundo" "00:06").length = 2 ∧
    (handleLiveUpdate [⟨"Hablante 1", Gender.masculino, "00:00", "Buenas"⟩,
        ⟨"En Vivo", Gender.desconocido, "00:05", "Hola"⟩] " mundo" "00:06").getLast?
      = some ⟨"En Vivo", Gender.desconocido, "00:05", "Hola mundo"⟩ := by
  have h1 := handleLiveUpdate_frame_effect.1
    [⟨"Hablante 1", Gender.masculino, "00:00", "Buenas"⟩,
      ⟨"En Vivo", Gender.desconocido, "00:05", "Hola"⟩] " mundo" "00:06"
  have h2 := handleLiveUpdate_frame_effect.2
    [⟨"Hablante 1", Gender.masculino, "00:00", "Buenas"⟩,
      ⟨"En Vivo", Gender.desconocido, "00:05", "Hola"⟩] " mundo" "00:06"
    ⟨"En Vivo", Gender.desconocido, "00:05", "Hola"⟩ (by rfl) (by rfl)
  refine ⟨?_, by simpa using h2.1, by simpa using h2.2⟩
  have hlen : (handleLiveUpdate [⟨"Hablante 1", Gender.masculino, "00:00", "Buenas"⟩,
      ⟨"En Vivo", Gender.desconocido, "00:05", "Hola"⟩] " mundo" "00:06").length - 1
      = 1 := by rw [h2.1]; rfl
  rw [hlen] at h1
  simpa using h1

/-! ### C8: CSV export (`handleExport`) -/

/-- The `/"/g → '""'` replacement applied to the text field before
quoting: every double quote is doubled, all other characters pass
through. -/
def escapeQuotes (s : String) : String :=
  String.mk (s.toList.flatMap fun c => if c = '"' then ['"', '"'] else [c])

/-- One exported CSV row for a segment, as interpolated by
`handleExport`. -/
def csvRow (t : TranscriptSegment) : String :=
  t.speaker ++ "," ++ t.gender.text ++ "," ++ t.timestamp ++ ","
    ++ "\"" ++ escapeQuotes t.text ++ "\"" ++ "\n"

/-- The accumulated export content: the header line, then
`content += row` for each segment in list order (`transcripts.forEach`). -/
def csvContent (segs : List TranscriptSegment) : String :=
  segs.foldl (fun content t => content ++ csvRow t) "Hablante,Género,Tiempo,Texto\n"

lemma string_join_cons (a : String) (l : List String) :
    String.join (a :: l) = a ++ String.join l := by
  rw [String.join_eq, String.join_eq]
  show String.mk ((a.data :: l.map String.data).flatten)
      = a ++ String.mk ((l.map String.data).flatten)
  rw [List.flatten_cons]
  rfl

lemma foldl_append_eq_join (f : TranscriptSegment → String) :
    ∀ (l : List TranscriptSegment) (init : String),
      l.foldl (fun content t => content ++ f t) init
        = init ++ String.join (l.map f) := by
  intro l
  induction l with
  | nil =>
    intro init
    simp [String.join]
  | cons x xs ih =>
    intro init
    rw [List.foldl_cons, ih, List.map_cons, string_join_cons, String.append_assoc]

/-- C8: for every non-empty segment list the export content is the header
line `Hablante,Género,Tiempo,Texto` followed by exactly one row per
segment, in list order, with the text field wrapped in double quotes and
each internal quote doubled. -/
theorem csvContent_header_and_rows (segs : List TranscriptSegment)
    (hne : segs ≠ []) :
    csvContent segs
      = "Hablante,Género,Tiempo,Texto\n"
        ++ String.join (segs.map fun t =>
            t.speaker ++ "," ++ t.gender.text ++ "," ++ t.timestamp ++ ","
              ++ "\"" ++ escapeQuotes t.text ++ "\"" ++ "\n") := by
  rw [csvContent, foldl_append_eq_join]
  rfl

/-- Witness for C8: the export of a concrete two-segment transcript whose
text contains an internal double quote. -/
theorem csvContent_header_and_rows_witness :
    csvContent [⟨"Hablante 1", Gender.masculino, "00:00", "di \"hola\""⟩,
        ⟨"Hablante 2", Gender.femenino, "00:10", "claro"⟩]
      = "Hablante,Género,Tiempo,Texto\n"
        ++ "Hablante 1,Masculino,00:00,\"di \"\"hola\"\"\"\n"
        ++ "Hablante 2,Femenino,00:10,\"claro\"\n" := by
  rw [csvContent_header_and_rows _ (by simp)]
  rfl

/-! ## Live session frame delivery (`LiveSession`, `src/unnamed/part_000`)

`startSession` wires `processor.onaudioprocess` to
`sessionPromise.then(session => session.sendRealtimeInput(...))`: each
captured frame registers a continuation on the pending session promise.
`stopSession` disconnects the processor and clears the refs; it never
calls a `close` method on the session (the code comments
"Currently we just stop sending data"). The model below replays any
interleaving of frame captures, promise settlement and stop requests
under JavaScript promise semantics (continuations registered before
fulfilment run, in order, once the promise fulfils). -/

/-- Observable state of one live session run, after `startSession` has
wired the graph and requested `connectLiveSession`. -/
structure LiveState where
  /-- The script processor is connected, so `onaudioprocess` fires. -/
  processorConnected : Bool
  /-- `sessionPromise` has fulfilled (the session reached `Open`). -/
  resolved : Bool
  /-- `sessionPromise` has rejected (connection failed). -/
  rejected : Bool
  /-- `stopSession` has run. -/
  stopped : Bool
  /-- Frames whose `.then` continuation waits on the pending promise. -/
  pendingSends : List ℕ
  /-- Frames delivered to the session via `sendRealtimeInput`, in order. -/
  sent : List ℕ
  /-- Every frame the processor captured (each `onaudioprocess` event). -/
  captured : List ℕ
  /-- Number of `close()` calls issued on the session. -/
  closeCalls : ℕ
deriving DecidableEq

/-- State right after `startSession` set up the graph: processor
connected, session promise pending, nothing sent. -/
def initialLive : LiveState :=
  { processorConnected := true, resolved := false, rejected := false,
    stopped := false, pendingSends := [], sent := [], captured := [],
    closeCalls := 0 }

/-- The events of a live run: a frame capture (one `onaudioprocess`
callback), settlement of the session promise either way, and a stop
request. -/
inductive LiveEvent where
  | capture (f : ℕ)
  | openResolve
  | openReject
  | stop
deriving DecidableEq

/-- One event against the source's handlers. A captured frame registers
`session => session.sendRealtimeInput(...)` on `sessionPromise`:
delivered at once if the promise already fulfilled, queued as a pending
continuation while it is pending, dropped by the `.catch` logger if it
rejected. Fulfilment runs all pending continuations in registration
order. `stopSession` disconnects the processor and nulls the refs — it
issues no `close()` call, so `closeCalls` is never incremented. -/
def liveStep (s : LiveState) : LiveEvent → LiveState
  | .capture f =>
      if s.processorConnected then
        if s.resolved then
          { s with sent := s.sent ++ [f], captured := s.captured ++ [f] }
        else if s.rejected then
          { s with captured := s.captured ++ [f] }
        else
          { s with pendingSends := s.pendingSends ++ [f],
                   captured := s.captured ++ [f] }
      else s
  | .openResolve =>
      if s.resolved ∨ s.rejected then s
      else
        { s with resolved := true, sent := s.sent ++ s.pendingSends,
                 pendingSends := [] }
  | .openReject =>
      if s.resolved ∨ s.rejected then s
      else { s with rejected := true, pendingSends := [] }
  | .stop =>
      { s with processorConnected := false, stopped := true }

/-- Replay a whole event interleaving from the freshly started state. -/
def runLive (events : List LiveEvent) : LiveState :=
  events.foldl liveStep initialLive

/-- A trace in which the session promise never rejects. -/
def noReject (events : List LiveEvent) : Prop :=
  LiveEvent.openReject ∉ events

instance (events : List LiveEvent) : Decidable (noReject events) := by
  unfold noReject
  infer_instance

/-- Invariant of reject-free runs: the frames already delivered plus the
continuations still pending are exactly the captured frames, and once the
promise fulfils nothing remains pending. -/
def liveGood (s : LiveState) : Prop :=
  s.rejected = false ∧
  s.sent ++ s.pendingSends = s.captured ∧
  (s.resolved = true → s.pendingSends = [])

lemma liveGood_step {s : LiveState} (hs : liveGood s) {e : LiveEvent}
    (he : e ≠ LiveEvent.openReject) : liveGood (liveStep s e) := by
  obtain ⟨hrej, hacc, hres⟩ := hs
  cases e with
  | capture f =>
    show liveGood (if s.processorConnected then _ else _)
    split
    · split
      · rename_i hr
        have hpend : s.pendingSends = [] := hres hr
        refine ⟨hrej, ?_, fun _ => hpend⟩
        show (s.sent ++ [f]) ++ s.pendingSends = s.captured ++ [f]
        rw [hpend, List.append_nil]
        rw [hpend, List.append_nil] at hacc
        rw [hacc]
      · split
        · rename_i hj
          rw [hrej] at hj
          exact absurd hj (by simp)
        · rename_i hr _
          refine ⟨hrej, ?_, fun h => absurd h hr⟩
          show s.sent ++ (s.pendingSends ++ [f]) = s.captured ++ [f]
          rw [← List.append_assoc, hacc]
    · exact ⟨hrej, hacc, hres⟩
  | openResolve =>
    show liveGood (if s.resolved ∨ s.rejected then _ else _)
    split
    · exact ⟨hrej, hacc, hres⟩
    · exact ⟨hrej, by simpa using hacc, fun _ => rfl⟩
  | openReject => exact absurd rfl he
  | stop => exact ⟨hrej, hacc, hres⟩

lemma runLive_good (events : List LiveEvent) (h : noReject events) :
    liveGood (runLive events) := by
  unfold runLive
  have haux : ∀ (l : List LiveEvent) (s : LiveState), liveGood s →
      (∀ e ∈ l, e ≠ LiveEvent.openReject) → liveGood (l.foldl liveStep s) := by
    intro l
    induction l with
    | nil => exact fun s hs _ => hs
    | cons e rest ih =>
      intro s hs hl
      rw [List.foldl_cons]
      exact ih _ (liveGood_step hs (hl e (by simp))) (fun x hx => hl x (by simp [hx]))
  refine haux events initialLive ⟨rfl, rfl, fun _ => rfl⟩ ?_
  intro e he
  intro hcontra
  rw [hcontra] at he
  exact h he

/-- Invariant of every run: the client never issues a `close()` call, and
once stopped the processor stays disconnected. -/
def liveSafe (s : LiveState) : Prop :=
  s.closeCalls = 0 ∧ (s.stopped = true → s.processorConnected = false)

lemma liveSafe_step {s : LiveState} (hs : liveSafe s) (e : LiveEvent) :
    liveSafe (liveStep s e) := by
  obtain ⟨hc, hst⟩ := hs
  cases e with
  | capture f =>
    show liveSafe (if s.processorConnected then _ else _)
    split
    · split
      · exact ⟨hc, hst⟩
      · split
        · exact ⟨hc, hst⟩
        · exact ⟨hc, hst⟩
    · exact ⟨hc, hst⟩
  | openResolve =>
    show liveSafe (if s.resolved ∨ s.rejected then _ else _)
    split
    · exact ⟨hc, hst⟩
    · exact ⟨hc, hst⟩
  | openReject =>
    show liveSafe (if s.resolved ∨ s.rejected then _ else _)
    split
    · exact ⟨hc, hst⟩
    · exact ⟨hc, hst⟩
  | stop => exact ⟨hc, fun _ => rfl⟩

lemma runLive_safe (events : List LiveEvent) : liveSafe (runLive events) := by
  unfold runLive
  have haux : ∀ (l : List LiveEvent) (s : LiveState), liveSafe s →
      liveSafe (l.foldl liveStep s) := by
    intro l
    induction l with
    | nil => exact fun s hs => hs
    | cons e rest ih =>
      intro s hs
      rw [List.foldl_cons]
      exact ih _ (liveSafe_step hs e)
  exact haux events initialLive ⟨rfl, fun h => by simp [initialLive] at h⟩

/-! ### C1 -/

/-- Counterexample to C1: in the spec's end-to-end scenario — three
frames captured, the session opening after frame 1 is produced — the code
delivers all three frames: frame 1's `sendRealtimeInput` continuation was
registered on the pending session promise and runs when it fulfils, so
the sent-frame count is 3, not the claimed 2, and frame 1 is not
dropped. -/
theorem preOpen_frame_not_dropped_counterexample :
    (runLive [LiveEvent.capture 1, LiveEvent.openResolve, LiveEvent.capture 2,
        LiveEvent.capture 3]).sent = [1, 2, 3] ∧
    ¬ (runLive [LiveEvent.capture 1, LiveEvent.openResolve, LiveEvent.capture 2,
        LiveEvent.capture 3]).sent.length = 2 := by
  constructor
  · rfl
  · decide

/-- C1 amended: frames captured before the streaming session reaches the
Open state are not dropped — each is deferred on the pending session
promise and delivered when it fulfils, so in every reject-free trace the
delivered frames followed by the still-deferred ones are exactly the
captured frames in capture order, and after fulfilment the delivered
frames are all captured frames; in the 3-frame scenario the sent-frame
count is 3. -/
theorem preOpen_frames_deferred_not_dropped (events : List LiveEvent)
    (h : noReject events) :
    (runLive events).sent ++ (runLive events).pendingSends
      = (runLive events).captured ∧
    ((runLive events).resolved = true →
      (runLive events).sent = (runLive events).captured) ∧
    (runLive [LiveEvent.capture 1, LiveEvent.openResolve, LiveEvent.capture 2,
        LiveEvent.capture 3]).sent.length = 3 := by
  obtain ⟨hrej, hacc, hres⟩ := runLive_good events h
  refine ⟨hacc, ?_, rfl⟩
  intro hr
  rw [← hacc, hres hr]
  simp

/-- Witness for the amended C1 at a concrete trace: one frame captured
while the promise is pending, then fulfilment. -/
theorem preOpen_frames_deferred_witness :
    (runLive [LiveEvent.capture 5, LiveEvent.openResolve]).sent
        ++ (runLive [LiveEvent.capture 5, LiveEvent.openResolve]).pendingSends
      = (runLive [LiveEvent.capture 5, LiveEvent.openResolve]).captured ∧
    ((runLive [LiveEvent.capture 5, LiveEvent.openResolve]).resolved = true →
      (runLive [LiveEvent.capture 5, LiveEvent.openResolve]).sent
        = (runLive [LiveEvent.capture 5, LiveEvent.openResolve]).captured) ∧
    (runLive [LiveEvent.capture 1, LiveEvent.openResolve, LiveEvent.capture 2,
        LiveEvent.capture 3]).sent.length = 3 :=
  preOpen_frames_deferred_not_dropped [LiveEvent.capture 5, LiveEvent.openResolve]
    (by decide)

/-! ### C5 -/

/-- Counterexample to C5: the client never invokes `close()` on an opened
session — after open-then-stop the close count is 0, not the required
exactly-once — and a stop issued before `open()` resolves leaves the
session fulfilled but still un-closed. -/
theorem close_never_called_counterexample :
    (runLive [LiveEvent.openResolve, LiveEvent.stop]).closeCalls = 0 ∧
    ¬ (runLive [LiveEvent.openResolve, LiveEvent.stop]).closeCalls = 1 ∧
    (runLive [LiveEvent.stop, LiveEvent.openResolve]).closeCalls = 0 ∧
    (runLive [LiveEvent.stop, LiveEvent.openResolve]).resolved = true := by
  decide

/-- C5 amended: `stopSession` only stops frame delivery — it never calls
`close()` on the session (the close count is 0 in every run, stop or not,
so a session opening after stop stays un-closed); what does hold is that
no frame captured after a stop request is ever delivered: once stopped,
a further capture event leaves the run state unchanged. -/
theorem stopSession_never_closes_but_blocks_frames (events : List LiveEvent)
    (f : ℕ) (h : (runLive events).stopped = true) :
    (runLive events).closeCalls = 0 ∧
    runLive (events ++ [LiveEvent.capture f]) = runLive events := by
  obtain ⟨hc, hst⟩ := runLive_safe events
  refine ⟨hc, ?_⟩
  rw [runLive, List.foldl_append]
  show liveStep (runLive events) (LiveEvent.capture f) = runLive events
  simp only [liveStep, hst h]
  simp

/-- Witness for the amended C5: stop before the open resolves, then a
late frame. -/
theorem stopSession_never_closes_witness :
    (runLive [LiveEvent.stop, LiveEvent.openResolve]).closeCalls = 0 ∧
    runLive ([LiveEvent.stop, LiveEvent.openResolve] ++ [LiveEvent.capture 9])
      = runLive [LiveEvent.stop, LiveEvent.openResolve] :=
  stopSession_never_closes_but_blocks_frames
    [LiveEvent.stop, LiveEvent.openResolve] 9 (by decide)

/-! ## Capture engine teardown (`stopSession` in `LiveSession`) -/

/-- The platform release calls that `stopSession` can issue. -/
inductive ReleaseAction where
  | disconnectProcessor
  | disconnectSource
  | stopTracks
  | closeContext
  | cancelAnimFrame (id : ℕ)
deriving DecidableEq

/-- The nullable refs `stopSession` inspects; `true` means the ref holds
a live resource. `animationFrameRef` carries the stored
`requestAnimationFrame` handle — `none` (undefined) and `some 0` are both
falsy in the `if (animationFrameRef.current)` check. -/
structure CaptureState where
  processorRef : Bool
  sourceRef : Bool
  mediaStreamRef : Bool
  audioContextRef : Bool
  sessionRef : Bool
  animationFrameRef : Option ℕ
  isActive : Bool
deriving DecidableEq

/-- `stopSession`: sets `isActive` false, then for each audio resource a
null-checked release (`disconnect`, `track.stop()`, `close()` on the
context) followed by clearing the ref; the session ref is cleared with no
`close()` on the session; finally `cancelAnimationFrame` on a truthy
handle — the handle ref itself is never cleared. Returns the new ref
state and the release calls issued, in source order. -/
def stopSession (s : CaptureState) : CaptureState × List ReleaseAction :=
  (⟨false, false, false, false, false, s.animationFrameRef, false⟩,
    (if s.processorRef then [ReleaseAction.disconnectProcessor] else [])
      ++ (if s.sourceRef then [ReleaseAction.disconnectSource] else [])
      ++ (if s.mediaStreamRef then [ReleaseAction.stopTracks] else [])
      ++ (if s.audioContextRef then [ReleaseAction.closeContext] else [])
      ++ (match s.animationFrameRef with
          | some id => if id ≠ 0 then [ReleaseAction.cancelAnimFrame id] else []
          | none => []))

/-- The component's state before `startSession` ever ran: every ref null,
no animation frame requested, inactive. -/
def notStartedCapture : CaptureState :=
  ⟨false, false, false, false, false, none, false⟩

/-- A fully started capture session: every ref populated and an animation
frame handle outstanding. -/
def startedCapture : CaptureState :=
  ⟨true, true, true, true, true, some 1, true⟩

/-! ### C7 -/

/-- Counterexample to C7: because `animationFrameRef` is never cleared, a
second consecutive `stopSession` does attempt a re-release — it issues
`cancelAnimationFrame` again with the same handle that the first stop
already cancelled — so the second stop is not free of release calls. -/
theorem stopSession_recancels_counterexample :
    (stopSession (stopSession startedCapture).1).2
        = [ReleaseAction.cancelAnimFrame 1] ∧
    ReleaseAction.cancelAnimFrame 1 ∈ (stopSession startedCapture).2 ∧
    ¬ (stopSession (stopSession startedCapture).1).2 = [] := by
  refine ⟨rfl, by decide, by decide⟩

/-- C7 amended: `stopSession` when not started is a complete no-op (state
unchanged, no release calls), it never throws (it is a total function),
and a second consecutive stop leaves the ref state unchanged and
re-releases none of the audio resources (processor, source, media tracks,
audio context, session) — but it does re-issue `cancelAnimationFrame`
with the stale handle, the only release call a second stop can make,
because the handle ref is never cleared. -/
theorem stopSession_idempotent_state_no_audio_rerelease (s : CaptureState) :
    stopSession notStartedCapture = (notStartedCapture, []) ∧
    (stopSession (stopSession s).1).1 = (stopSession s).1 ∧
    (∀ a ∈ (stopSession (stopSession s).1).2,
      ∃ id, a = ReleaseAction.cancelAnimFrame id) := by
  refine ⟨rfl, rfl, ?_⟩
  intro a ha
  simp only [stopSession, if_neg (by simp : ¬ (false = true)), List.nil_append] at ha
  cases hf : s.animationFrameRef with
  | none =>
    rw [hf] at ha
    simp at ha
  | some id =>
    rw [hf] at ha
    change a ∈ (if id ≠ 0 then [ReleaseAction.cancelAnimFrame id] else []) at ha
    by_cases hz : id ≠ 0
    · rw [if_pos hz] at ha
      have : a = ReleaseAction.cancelAnimFrame id := by simpa using ha
      exact ⟨id, this⟩
    · rw [if_neg hz] at ha
      simp at ha

/-- Witness for the amended C7: both stops evaluated on the concrete
started state; the second stop's single release call is the re-issued
animation-frame cancellation. -/
theorem stopSession_idempotent_state_witness :
    stopSession notStartedCapture = (notStartedCapture, []) ∧
    (stopSession (stopSession startedCapture).1).1 = (stopSession startedCapture).1 ∧
    (∃ id, ReleaseAction.cancelAnimFrame 1 = ReleaseAction.cancelAnimFrame id) := by
  obtain ⟨h1, h2, h3⟩ := stopSession_idempotent_state_no_audio_rerelease startedCapture
  exact ⟨h1, h2, h3 (ReleaseAction.cancelAnimFrame 1) (by decide)⟩

/-! ## Batch response handling (`transcribeAudioFile`) -/

/-- `TranscribeError`: the value rethrown by `transcribeAudioFile`'s
`catch` block (the `App` caller maps it to a generic processing
message). -/
inductive TranscribeError where
  | parseFailure
deriving DecidableEq

/-- The response handling of `transcribeAudioFile`:
`const jsonText = response.text; if (!jsonText) return [];
return JSON.parse(jsonText);` inside a `try` whose `catch` logs and
rethrows. `respText` models `response.text` (`none` for an undefined
field, and the empty string is also falsy); `parse` abstracts the
platform `JSON.parse` (`none` when it would throw on the payload). -/
def transcribeAudioFile (parse : String → Option (List TranscriptSegment))
    (respText : Option String) : Except TranscribeError (List TranscriptSegment) :=
  match respText with
  | none => Except.ok []
  | some s =>
      if s = "" then Except.ok []
      else
        match parse s with
        | some segs => Except.ok segs
        | none => Except.error TranscribeError.parseFailure

/-! ### C6 -/

/-- Counterexample to C6: a malformed (unparseable) batch response does
not yield an empty transcript — `JSON.parse`'s exception is caught,
logged and rethrown, so the caller gets an error (the concrete payload
`"not json"` with the platform parser failing on it). -/
theorem transcribeAudioFile_malformed_counterexample :
    transcribeAudioFile (fun _ => none) (some "not json")
        = Except.error TranscribeError.parseFailure ∧
    ¬ transcribeAudioFile (fun _ => none) (some "not json")
        = Except.ok ([] : List TranscriptSegment) := by
  refine ⟨rfl, fun h => Except.noConfusion h⟩

/-- C6 amended: an empty or missing response text yields the empty
transcript, and a parseable response yields its parsed segments, but a
non-empty unparseable response propagates an error to the caller rather
than an empty transcript. -/
theorem transcribeAudioFile_empty_ok_malformed_error
    (parse : String → Option (List TranscriptSegment)) :
    transcribeAudioFile parse none = Except.ok [] ∧
    transcribeAudioFile parse (some "") = Except.ok [] ∧
    (∀ s, s ≠ "" → parse s = none →
      transcribeAudioFile parse (some s)
        = Except.error TranscribeError.parseFailure) ∧
    (∀ s segs, s ≠ "" → parse s = some segs →
      transcribeAudioFile parse (some s) = Except.ok segs) := by
  refine ⟨rfl, rfl, ?_, ?_⟩
  · intro s hs hp
    simp only [transcribeAudioFile, if_neg hs, hp]
  · intro s segs hs hp
    simp only [transcribeAudioFile, if_neg hs, hp]

/-- Witness for the amended C6 with a concrete parser outcome table. -/
theorem transcribeAudioFile_empty_ok_witness :
    transcribeAudioFile (fun _ => none) none = Except.ok [] ∧
    transcribeAudioFile (fun _ => none) (some "") = Except.ok [] ∧
    transcribeAudioFile (fun _ => none) (some "x")
      = Except.error TranscribeError.parseFailure := by
  obtain ⟨h1, h2, h3, _⟩ :=
    transcribeAudioFile_empty_ok_malformed_error (fun _ => none)
  exact ⟨h1, h2, h3 "x" (by decide) rfl⟩

end Reuniones
